import Mathlib

/-!
Verification of the attendance projection core of `src/attendance_tracker_app.py`.

The core consists of two functions:

* `classes_to_attend present total target` — the Python code builds the equation
  `(present + x) / (total + x) - target / 100 = 0` and solves it symbolically
  with `sympy.solve`, then returns `max(0, ceil(sol[0]))` when a solution
  exists and `0` when the solution list is empty.  For `target ≠ 100` the
  equation is linear with the unique candidate root
  `x0 = (target·total - 100·present) / (100 - target)`, which `sympy.solve`
  discards exactly when it coincides with the pole of the rational expression,
  i.e. when `total + x0 = 0`; for `target = 100` the numerator is constant and
  the solution list is always empty.  The embedding below reproduces exactly
  that case analysis.

* `classes_can_leave present total target` — the Python code returns `0` when
  `total == 0`, and otherwise runs
  `leave = 0; while present / (total + leave) * 100 >= target: leave += 1`
  and returns `max(0, leave - 1)`.  The loop has no a-priori bound (it never
  exits when `target = 0`), so it is embedded with explicit fuel: `none`
  means the loop has not exited within `fuel` iterations.  Divergence is the
  statement that the result is `none` for every fuel.

Numbers are modelled by exact rationals `ℚ`.
-/

namespace AttendanceTracker

/-- Embedding of `classes_to_attend` (src/attendance_tracker_app.py, lines
99–108): the result of `max(0, math.ceil(sol[0])) if sol else 0` where `sol`
is sympy's solution list for `(present + x)/(total + x) - target/100 = 0`. -/
def classes_to_attend (present total target : ℚ) : ℤ :=
  if target = 100 then 0
  else if total + (target * total - 100 * present) / (100 - target) = 0 then 0
  else max 0 ⌈(target * total - 100 * present) / (100 - target)⌉

/-- Embedding of the `while` loop inside `classes_can_leave`
(src/attendance_tracker_app.py, lines 116–120), with explicit fuel.
`leaveLoop p t T fuel leave` returns `some L` when the loop, started at
counter value `leave`, exits with counter value `L` within `fuel` iterations,
and `none` when `fuel` iterations do not suffice. -/
def leaveLoop (present total target : ℚ) : ℕ → ℕ → Option ℕ
  | 0, _ => none
  | fuel + 1, leave =>
    if target ≤ present / (total + (leave : ℚ)) * 100 then
      leaveLoop present total target fuel (leave + 1)
    else
      some leave

/-- Embedding of `classes_can_leave` (src/attendance_tracker_app.py, lines
111–121): returns `0` when `total = 0`, otherwise runs the loop and returns
`max(0, leave - 1)`.  `none` means the loop did not terminate within `fuel`
iterations. -/
def classes_can_leave (present total target : ℚ) (fuel : ℕ) : Option ℤ :=
  if total = 0 then some 0
  else (leaveLoop present total target fuel 0).map fun leave =>
    max 0 ((leave : ℤ) - 1)

example : classes_to_attend 20 30 75 = 10 := by norm_num [classes_to_attend]
example : classes_to_attend 25 30 75 = 0 := by norm_num [classes_to_attend, Int.ceil_le]
example : classes_to_attend 0 10 50 = 10 := by norm_num [classes_to_attend]
example : classes_to_attend 5 0 75 = 0 := by norm_num [classes_to_attend, Int.ceil_le]
example : classes_to_attend 1 2 100 = 0 := by norm_num [classes_to_attend]
example : classes_can_leave 25 30 75 10 = some 3 := by
  norm_num [classes_can_leave, leaveLoop]
example : classes_can_leave 1 2 75 1 = some 0 := by
  norm_num [classes_can_leave, leaveLoop]
example : classes_can_leave 0 30 75 1 = some 0 := by
  norm_num [classes_can_leave, leaveLoop]
example : classes_can_leave 10 0 0 0 = some 0 := by
  norm_num [classes_can_leave]

/-- The target inequality `T/100 ≤ (p+n)/(t+n)` is equivalent to
`x0 ≤ n` where `x0` is the root sympy finds, provided `t + n > 0` and
`T < 100`. -/
lemma attend_key (p t T n : ℚ) (htn : 0 < t + n) (hT : T < 100) :
    T / 100 ≤ (p + n) / (t + n) ↔
      (T * t - 100 * p) / (100 - T) ≤ n := by
  rw [div_le_div_iff₀ (by norm_num : (0 : ℚ) < 100) htn,
    div_le_iff₀ (by linarith : (0 : ℚ) < 100 - T)]
  constructor <;> intro h <;> nlinarith

/-- The candidate root coincides with the pole of the rational expression
exactly when `present = total`. -/
lemma pole_iff (p t T : ℚ) (hT : T < 100) :
    t + (T * t - 100 * p) / (100 - T) = 0 ↔ p = t := by
  have h : (100 : ℚ) - T ≠ 0 := ne_of_gt (by linarith)
  rw [add_div' _ _ _ h, div_eq_zero_iff]
  constructor
  · rintro (h' | h')
    · nlinarith
    · exact absurd h' h
  · intro h'
    left
    nlinarith

/-- The result of `classes_to_attend` is never negative. -/
lemma classes_to_attend_nonneg (p t T : ℚ) :
    0 ≤ classes_to_attend p t T := by
  rw [classes_to_attend]
  split
  · exact le_refl 0
  · split
    · exact le_refl 0
    · exact le_max_left 0 _

/-- After attending `classes_to_attend p t T` further classes the ratio
reaches the target. -/
lemma classes_to_attend_sat (p t T : ℚ) (ht : 0 < t) (hT : T < 100) :
    T / 100 ≤ (p + (classes_to_attend p t T : ℚ)) /
      (t + (classes_to_attend p t T : ℚ)) := by
  rw [classes_to_attend, if_neg (ne_of_lt hT)]
  by_cases hpole : t + (T * t - 100 * p) / (100 - T) = 0
  · rw [if_pos hpole]
    have hpt : p = t := (pole_iff p t T hT).mp hpole
    push_cast
    rw [add_zero, add_zero, hpt, div_self (ne_of_gt ht)]
    rw [div_le_one (by norm_num : (0 : ℚ) < 100)]
    linarith
  · rw [if_neg hpole]
    set x0 : ℚ := (T * t - 100 * p) / (100 - T) with hx0
    have hn0 : (0 : ℤ) ≤ max 0 ⌈x0⌉ := le_max_left 0 _
    have htn : (0 : ℚ) < t + (max 0 ⌈x0⌉ : ℤ) := by
      have : (0 : ℚ) ≤ ((max 0 ⌈x0⌉ : ℤ) : ℚ) := by exact_mod_cast hn0
      linarith
    rw [attend_key p t T _ htn hT]
    calc x0 ≤ (⌈x0⌉ : ℚ) := Int.le_ceil x0
      _ ≤ ((max 0 ⌈x0⌉ : ℤ) : ℚ) := by exact_mod_cast le_max_right 0 ⌈x0⌉

/-- No smaller non-negative integer than `classes_to_attend p t T` makes the
ratio reach the target. -/
lemma classes_to_attend_lb (p t T : ℚ) (ht : 0 < t) (hT : T < 100)
    (m : ℤ) (hm : 0 ≤ m) (hsat : T / 100 ≤ (p + (m : ℚ)) / (t + (m : ℚ))) :
    classes_to_attend p t T ≤ m := by
  have htm : (0 : ℚ) < t + (m : ℚ) := by
    have : (0 : ℚ) ≤ (m : ℚ) := by exact_mod_cast hm
    linarith
  rw [classes_to_attend, if_neg (ne_of_lt hT)]
  by_cases hpole : t + (T * t - 100 * p) / (100 - T) = 0
  · rw [if_pos hpole]; exact hm
  · rw [if_neg hpole]
    have hx : (T * t - 100 * p) / (100 - T) ≤ (m : ℚ) :=
      (attend_key p t T _ htm hT).mp hsat
    have hceil : ⌈(T * t - 100 * p) / (100 - T)⌉ ≤ m := Int.ceil_le.mpr hx
    exact max_le hm hceil

/-- When `classes_to_attend p t T` is positive, one class fewer does not yet
reach the target. -/
lemma classes_to_attend_tight (p t T : ℚ) (ht : 0 < t) (hT : T < 100)
    (hpos : 0 < classes_to_attend p t T) :
    (p + ((classes_to_attend p t T : ℚ) - 1)) /
      (t + ((classes_to_attend p t T : ℚ) - 1)) < T / 100 := by
  rw [classes_to_attend, if_neg (ne_of_lt hT)] at hpos ⊢
  by_cases hpole : t + (T * t - 100 * p) / (100 - T) = 0
  · rw [if_pos hpole] at hpos
    exact absurd hpos (lt_irrefl 0)
  · rw [if_neg hpole] at hpos ⊢
    set x0 : ℚ := (T * t - 100 * p) / (100 - T) with hx0
    have hceil_pos : 0 < ⌈x0⌉ := by
      by_contra hc
      push_neg at hc
      rw [max_eq_left hc] at hpos
      exact absurd hpos (lt_irrefl 0)
    have hmax : max 0 ⌈x0⌉ = ⌈x0⌉ := max_eq_right (le_of_lt hceil_pos)
    rw [hmax]
    have h1 : (1 : ℤ) ≤ ⌈x0⌉ := hceil_pos
    have htn : (0 : ℚ) < t + ((⌈x0⌉ : ℚ) - 1) := by
      have : (1 : ℚ) ≤ (⌈x0⌉ : ℚ) := by exact_mod_cast h1
      linarith
    rw [← not_le, attend_key p t T _ htn hT]
    intro hle
    have : (⌈x0⌉ : ℚ) < x0 + 1 := Int.ceil_lt_add_one x0
    linarith

/-- C1: for `p ≥ 0`, `t > 0` and `T ∈ [0,100)`, `classes_to_attend p t T`
is the smallest non-negative integer `n` with `(p+n)/(t+n) ≥ T/100`. -/
theorem classes_to_attend_least (p t T : ℚ) (hp : 0 ≤ p) (ht : 0 < t)
    (hT0 : 0 ≤ T) (hT : T < 100) :
    0 ≤ classes_to_attend p t T ∧
      T / 100 ≤ (p + (classes_to_attend p t T : ℚ)) /
        (t + (classes_to_attend p t T : ℚ)) ∧
      ∀ m : ℤ, 0 ≤ m → T / 100 ≤ (p + (m : ℚ)) / (t + (m : ℚ)) →
        classes_to_attend p t T ≤ m :=
  ⟨classes_to_attend_nonneg p t T, classes_to_attend_sat p t T ht hT,
    fun m hm hsat => classes_to_attend_lb p t T ht hT m hm hsat⟩

/-- Witness for C1 at the spec's first concrete scenario:
`classes_to_attend 20 30 75 = 10` is the least solution. -/
theorem classes_to_attend_least_witness :
    (0 : ℚ) ≤ 20 ∧ (0 : ℚ) < 30 ∧ (0 : ℚ) ≤ 75 ∧ (75 : ℚ) < 100 ∧
      (0 ≤ classes_to_attend 20 30 75 ∧
        (75 : ℚ) / 100 ≤ (20 + (classes_to_attend 20 30 75 : ℚ)) /
          (30 + (classes_to_attend 20 30 75 : ℚ)) ∧
        ∀ m : ℤ, 0 ≤ m → (75 : ℚ) / 100 ≤ (20 + (m : ℚ)) / (30 + (m : ℚ)) →
          classes_to_attend 20 30 75 ≤ m) :=
  ⟨by norm_num, by norm_num, by norm_num, by norm_num,
    classes_to_attend_least 20 30 75 (by norm_num) (by norm_num)
      (by norm_num) (by norm_num)⟩

/-- C4: the code does not reject `total = 0`; `classes_to_attend 5 0 75`
silently returns the number `0` instead of failing with `InvalidInput`. -/
theorem classes_to_attend_total_zero_returns_zero :
    classes_to_attend 5 0 75 = 0 := by
  norm_num [classes_to_attend, Int.ceil_le]

/-- C7: if the current percentage already meets the target, zero further
classes are required, and the result is never negative. -/
theorem classes_to_attend_zero_of_already_met (p t T : ℚ) (hp : 0 ≤ p)
    (ht : 0 < t) (hT0 : 0 ≤ T) (hT : T ≤ 100) :
    (T ≤ p / t * 100 → classes_to_attend p t T = 0) ∧
      0 ≤ classes_to_attend p t T := by
  refine ⟨?_, classes_to_attend_nonneg p t T⟩
  intro hcur
  rw [classes_to_attend]
  by_cases h100 : T = 100
  · rw [if_pos h100]
  · rw [if_neg h100]
    have hT' : T < 100 := lt_of_le_of_ne hT h100
    by_cases hpole : t + (T * t - 100 * p) / (100 - T) = 0
    · rw [if_pos hpole]
    · rw [if_neg hpole]
      have hnum : T * t - 100 * p ≤ 0 := by
        rw [div_mul_eq_mul_div, le_div_iff₀ ht] at hcur
        nlinarith
      have hx0 : (T * t - 100 * p) / (100 - T) ≤ 0 :=
        div_nonpos_of_nonpos_of_nonneg hnum (by linarith)
      have hceil : ⌈(T * t - 100 * p) / (100 - T)⌉ ≤ 0 := by
        rw [Int.ceil_le]
        exact_mod_cast hx0
      exact max_eq_left hceil

/-- Witness for C7 at the spec's second concrete scenario:
`classes_to_attend 25 30 75 = 0` since `25/30·100 ≈ 83.3 ≥ 75`. -/
theorem classes_to_attend_zero_of_already_met_witness :
    (0 : ℚ) ≤ 25 ∧ (0 : ℚ) < 30 ∧ (0 : ℚ) ≤ 75 ∧ (75 : ℚ) ≤ 100 ∧
      (((75 : ℚ) ≤ 25 / 30 * 100 → classes_to_attend 25 30 75 = 0) ∧
        0 ≤ classes_to_attend 25 30 75) :=
  ⟨by norm_num, by norm_num, by norm_num, by norm_num,
    classes_to_attend_zero_of_already_met 25 30 75 (by norm_num)
      (by norm_num) (by norm_num) (by norm_num)⟩

/-- Counterexample to C6 as stated: at `target = 100` (allowed by the
claim's range `[0,100]`) the sympy solution list is empty, the code returns
`0`, and the recomputed percentage `1/2·100 = 50` stays below the target. -/
theorem classes_to_attend_tight_cex :
    classes_to_attend 1 2 100 = 0 ∧
      ¬ (100 : ℚ) ≤ (1 + (classes_to_attend 1 2 100 : ℚ)) /
        (2 + (classes_to_attend 1 2 100 : ℚ)) * 100 := by
  have h : classes_to_attend 1 2 100 = 0 := by norm_num [classes_to_attend]
  refine ⟨h, ?_⟩
  rw [h]
  norm_num

/-- C6 amended to `T < 100`: the recomputed percentage after attending
`classes_to_attend p t T` further classes is at least `T`, and when the
result is positive, one class fewer leaves the percentage below `T`. -/
theorem classes_to_attend_meets_target_and_tight (p t T : ℚ) (hp : 0 ≤ p)
    (ht : 0 < t) (hT0 : 0 ≤ T) (hT : T < 100) :
    T ≤ (p + (classes_to_attend p t T : ℚ)) /
        (t + (classes_to_attend p t T : ℚ)) * 100 ∧
      (0 < classes_to_attend p t T →
        (p + ((classes_to_attend p t T : ℚ) - 1)) /
          (t + ((classes_to_attend p t T : ℚ) - 1)) * 100 < T) := by
  constructor
  · have h := classes_to_attend_sat p t T ht hT
    rw [div_le_iff₀ (by norm_num : (0 : ℚ) < 100)] at h
    exact h
  · intro hpos
    have h := classes_to_attend_tight p t T ht hT hpos
    rw [lt_div_iff₀ (by norm_num : (0 : ℚ) < 100)] at h
    exact h

/-- Witness for the amended C6 at `classes_to_attend 20 30 75 = 10`:
`30/40·100 = 75 ≥ 75` and `29/39·100 < 75`. -/
theorem classes_to_attend_meets_target_and_tight_witness :
    (0 : ℚ) ≤ 20 ∧ (0 : ℚ) < 30 ∧ (0 : ℚ) ≤ 75 ∧ (75 : ℚ) < 100 ∧
      ((75 : ℚ) ≤ (20 + (classes_to_attend 20 30 75 : ℚ)) /
          (30 + (classes_to_attend 20 30 75 : ℚ)) * 100 ∧
        (0 < classes_to_attend 20 30 75 →
          (20 + ((classes_to_attend 20 30 75 : ℚ) - 1)) /
            (30 + ((classes_to_attend 20 30 75 : ℚ) - 1)) * 100 < 75)) :=
  ⟨by norm_num, by norm_num, by norm_num, by norm_num,
    classes_to_attend_meets_target_and_tight 20 30 75 (by norm_num)
      (by norm_num) (by norm_num) (by norm_num)⟩

/-- Counterexample to C8 as stated: with targets `75 ≤ 100`, both in
`[0,100]`, the value at the lower target is `2` while the value at `100`
collapses to `0`, so monotonicity in the target fails at the endpoint. -/
theorem classes_to_attend_monotone_cex :
    ¬ classes_to_attend 1 2 75 ≤ classes_to_attend 1 2 100 := by
  norm_num [classes_to_attend]

/-- C8 amended to targets strictly below `100`: for fixed `p ≥ 0`, `t > 0`,
`classes_to_attend` is monotone in the target on `[0,100)`. -/
theorem classes_to_attend_monotone (p t T1 T2 : ℚ) (hp : 0 ≤ p) (ht : 0 < t)
    (hT0 : 0 ≤ T1) (h12 : T1 ≤ T2) (hT2 : T2 < 100) :
    classes_to_attend p t T1 ≤ classes_to_attend p t T2 := by
  have hT1 : T1 < 100 := lt_of_le_of_lt h12 hT2
  rw [classes_to_attend, classes_to_attend, if_neg (ne_of_lt hT1),
    if_neg (ne_of_lt hT2)]
  by_cases hpt : p = t
  · rw [if_pos ((pole_iff p t T1 hT1).mpr hpt),
      if_pos ((pole_iff p t T2 hT2).mpr hpt)]
  · rw [if_neg (fun h => hpt ((pole_iff p t T1 hT1).mp h)),
      if_neg (fun h => hpt ((pole_iff p t T2 hT2).mp h))]
    rcases lt_or_gt_of_ne hpt with hlt | hgt
    · have hx : (T1 * t - 100 * p) / (100 - T1) ≤
          (T2 * t - 100 * p) / (100 - T2) := by
        rw [div_le_div_iff₀ (by linarith : (0 : ℚ) < 100 - T1)
          (by linarith : (0 : ℚ) < 100 - T2)]
        nlinarith [mul_nonneg (sub_nonneg.mpr h12)
          (sub_nonneg.mpr (le_of_lt hlt))]
      exact max_le_max (le_refl 0) (Int.ceil_mono hx)
    · have hz1 : ⌈(T1 * t - 100 * p) / (100 - T1)⌉ ≤ 0 :=
        Int.ceil_le.mpr (by
          push_cast
          exact div_nonpos_of_nonpos_of_nonneg (by nlinarith) (by linarith))
      have hz2 : ⌈(T2 * t - 100 * p) / (100 - T2)⌉ ≤ 0 :=
        Int.ceil_le.mpr (by
          push_cast
          exact div_nonpos_of_nonpos_of_nonneg (by nlinarith) (by linarith))
      rw [max_eq_left hz1, max_eq_left hz2]

/-- Witness for the amended C8: `classes_to_attend 20 30 50 = 0` and
`classes_to_attend 20 30 75 = 10` are ordered with the targets. -/
theorem classes_to_attend_monotone_witness :
    (0 : ℚ) ≤ 20 ∧ (0 : ℚ) < 30 ∧ (0 : ℚ) ≤ 50 ∧ (50 : ℚ) ≤ 75 ∧
      (75 : ℚ) < 100 ∧
      classes_to_attend 20 30 50 ≤ classes_to_attend 20 30 75 :=
  ⟨by norm_num, by norm_num, by norm_num, by norm_num, by norm_num,
    classes_to_attend_monotone 20 30 50 75 (by norm_num) (by norm_num)
      (by norm_num) (by norm_num) (by norm_num)⟩

/-- Characterization of a terminating run of the loop: if it exits at
counter value `L` when started at `s`, every counter value in `[s, L)`
satisfied the loop condition and `L` is the first that does not. -/
lemma leaveLoop_some_char (p t T : ℚ) :
    ∀ fuel s L : ℕ, leaveLoop p t T fuel s = some L →
      s ≤ L ∧ (∀ k, s ≤ k → k < L → T ≤ p / (t + (k : ℚ)) * 100) ∧
        ¬ T ≤ p / (t + (L : ℚ)) * 100 := by
  intro fuel
  induction fuel with
  | zero =>
    intro s L h
    exact absurd h (by simp [leaveLoop])
  | succ f ih =>
    intro s L h
    simp only [leaveLoop] at h
    by_cases hc : T ≤ p / (t + (s : ℚ)) * 100
    · rw [if_pos hc] at h
      obtain ⟨h1, h2, h3⟩ := ih (s + 1) L h
      refine ⟨by omega, ?_, h3⟩
      intro k hk1 hk2
      rcases Nat.eq_or_lt_of_le hk1 with heq | hlt
      · rw [← heq]
        exact hc
      · exact h2 k hlt hk2
    · rw [if_neg hc] at h
      injection h with h'
      subst h'
      exact ⟨le_refl s,
        fun k hk1 hk2 => absurd (lt_of_le_of_lt hk1 hk2) (lt_irrefl s), hc⟩

/-- If the loop condition fails at counter value `s + d`, the loop started at
`s` exits within `d + 1` iterations. -/
lemma leaveLoop_exits (p t T : ℚ) :
    ∀ d s : ℕ, ¬ T ≤ p / (t + ((s + d : ℕ) : ℚ)) * 100 →
      ∃ L, leaveLoop p t T (d + 1) s = some L := by
  intro d
  induction d with
  | zero =>
    intro s h
    refine ⟨s, ?_⟩
    simp only [leaveLoop]
    rw [if_neg (by simpa using h)]
  | succ d ih =>
    intro s h
    by_cases hc : T ≤ p / (t + (s : ℚ)) * 100
    · obtain ⟨L, hL⟩ := ih (s + 1) (by
        have harr : (s + 1 + d : ℕ) = (s + (d + 1) : ℕ) := by omega
        rw [harr]
        exact h)
      refine ⟨L, ?_⟩
      simp only [leaveLoop]
      rw [if_pos hc]
      exact hL
    · refine ⟨s, ?_⟩
      simp only [leaveLoop]
      rw [if_neg hc]

/-- Two terminating runs of the loop from the same start exit at the same
counter value, whatever their fuels. -/
lemma leaveLoop_some_unique (p t T : ℚ) (f1 f2 s L1 L2 : ℕ)
    (h1 : leaveLoop p t T f1 s = some L1)
    (h2 : leaveLoop p t T f2 s = some L2) : L1 = L2 := by
  obtain ⟨ha1, hb1, hc1⟩ := leaveLoop_some_char p t T f1 s L1 h1
  obtain ⟨ha2, hb2, hc2⟩ := leaveLoop_some_char p t T f2 s L2 h2
  by_contra hne
  rcases lt_or_gt_of_ne hne with hlt | hgt
  · exact hc1 (hb2 L1 ha1 hlt)
  · exact hc2 (hb1 L2 ha2 hgt)

/-- With a non-positive target, a non-negative numerator and a positive
denominator, the loop condition always holds, so the loop never exits. -/
lemma leaveLoop_none_of_nonpos_target (p t T : ℚ) (hp : 0 ≤ p) (ht : 0 < t)
    (hT : T ≤ 0) : ∀ fuel s, leaveLoop p t T fuel s = none := by
  intro fuel
  induction fuel with
  | zero => intro s; rfl
  | succ f ih =>
    intro s
    have hs : (0 : ℚ) ≤ (s : ℚ) := Nat.cast_nonneg s
    have hc : T ≤ p / (t + (s : ℚ)) * 100 :=
      le_trans hT (mul_nonneg (div_nonneg hp (by linarith)) (by norm_num))
    simp only [leaveLoop]
    rw [if_pos hc]
    exact ih (s + 1)

/-- C3: the spec demands an `InvalidInput` failure for `target = 0`, but at
the spec's own test input `classes_can_leave(10, 20, 0)` the loop condition
`10/(20+leave)·100 ≥ 0` holds forever, so the code never returns: the run is
`none` for every fuel. -/
theorem classes_can_leave_target_zero_diverges (fuel : ℕ) :
    classes_can_leave 10 20 0 fuel = none := by
  rw [classes_can_leave, if_neg (by norm_num : (20 : ℚ) ≠ 0),
    leaveLoop_none_of_nonpos_target 10 20 0 (by norm_num) (by norm_num)
      (le_refl 0) fuel 0]
  rfl

/-- C5: the loop has no termination bound on the claimed input range: at
`present = 7`, `total = 3`, `target = 0` (all within `p ≥ 0`, `t ≥ 0`,
`T ∈ [0,100]`) the loop runs forever, returning `none` for every fuel. -/
theorem classes_can_leave_nontermination (fuel : ℕ) :
    classes_can_leave 7 3 0 fuel = none := by
  rw [classes_can_leave, if_neg (by norm_num : (3 : ℚ) ≠ 0),
    leaveLoop_none_of_nonpos_target 7 3 0 (by norm_num) (by norm_num)
      (le_refl 0) fuel 0]
  rfl

/-- C9: with no effective presence and a positive target the loop condition
fails immediately, and the code returns `0`. -/
theorem classes_can_leave_zero_present (t T : ℚ) (fuel : ℕ) (ht : 0 < t)
    (hT : 0 < T) : classes_can_leave 0 t T (fuel + 1) = some 0 := by
  rw [classes_can_leave, if_neg (ne_of_gt ht)]
  have hc : ¬ T ≤ (0 : ℚ) / (t + ((0 : ℕ) : ℚ)) * 100 := by
    rw [zero_div, zero_mul]
    exact not_le.mpr hT
  simp only [leaveLoop]
  rw [if_neg hc]
  norm_num

/-- Witness for C9: `classes_can_leave 0 30 75` exits after one probe with
result `0`. -/
theorem classes_can_leave_zero_present_witness :
    (0 : ℚ) < 30 ∧ (0 : ℚ) < 75 ∧ classes_can_leave 0 30 75 (0 + 1) = some 0 :=
  ⟨by norm_num, by norm_num,
    classes_can_leave_zero_present 30 75 0 (by norm_num) (by norm_num)⟩

/-- C10: the guard `if total == 0: return 0` maps `total = 0` to `0`
immediately, for every target (including `0`) and every fuel. -/
theorem classes_can_leave_total_zero (p T : ℚ) (fuel : ℕ) (hp : 0 ≤ p) :
    classes_can_leave p 0 T fuel = some 0 := by
  rw [classes_can_leave, if_pos rfl]

/-- Witness for C10 at `present = 10`, `target = 0`, fuel `0`. -/
theorem classes_can_leave_total_zero_witness :
    (0 : ℚ) ≤ 10 ∧ classes_can_leave 10 0 0 0 = some 0 :=
  ⟨by norm_num, classes_can_leave_total_zero 10 0 0 (by norm_num)⟩

/-- Counterexample to C2 as stated: at `present = 1`, `total = 2`,
`target = 75` (within the claim's range) the current percentage `50` is
already below target, the loop exits at once and the code returns `0`, yet
`0` does not satisfy `1/(2+0)·100 ≥ 75` — no `n` does, so there is no
largest such `n`. -/
theorem classes_can_leave_largest_cex :
    classes_can_leave 1 2 75 1 = some 0 ∧
      ¬ (75 : ℚ) ≤ 1 / (2 + ((0 : ℤ) : ℚ)) * 100 := by
  constructor
  · norm_num [classes_can_leave, leaveLoop]
  · norm_num

/-- C2 amended with the precondition that the current percentage already
meets the target: then the loop terminates for some fuel, returns the
largest non-negative `n` with `p/(t+n)·100 ≥ T` (so `n` is safe and `n + 1`
is not), and every terminating run returns that same `n`. -/
theorem classes_can_leave_largest (p t T : ℚ) (hp : 0 < p) (ht : 0 < t)
    (hT0 : 0 < T) (hT : T ≤ 100) (hcur : T ≤ p / t * 100) :
    ∃ (fuel : ℕ) (n : ℤ),
      classes_can_leave p t T fuel = some n ∧ 0 ≤ n ∧
        T ≤ p / (t + (n : ℚ)) * 100 ∧
        p / (t + ((n : ℚ) + 1)) * 100 < T ∧
        (∀ m : ℤ, 0 ≤ m → T ≤ p / (t + (m : ℚ)) * 100 → m ≤ n) ∧
        ∀ (fuel' : ℕ) (n' : ℤ), classes_can_leave p t T fuel' = some n' →
          n' = n := by
  obtain ⟨m, hm⟩ := exists_nat_gt ((100 * p - T * t) / T)
  rw [div_lt_iff₀ hT0] at hm
  have hmfail : ¬ T ≤ p / (t + (m : ℚ)) * 100 := by
    have hmm : (0 : ℚ) ≤ (m : ℚ) := Nat.cast_nonneg m
    rw [not_le, div_mul_eq_mul_div,
      div_lt_iff₀ (by linarith : (0 : ℚ) < t + (m : ℚ))]
    nlinarith
  obtain ⟨L, hL⟩ := leaveLoop_exits p t T m 0 (by simpa using hmfail)
  obtain ⟨hL0, hLall, hLfail⟩ := leaveLoop_some_char p t T (m + 1) 0 L hL
  have hL1 : 1 ≤ L := by
    rcases Nat.eq_zero_or_pos L with h0 | h1
    · exfalso
      apply hLfail
      rw [h0]
      simpa using hcur
    · exact h1
  have hL1' : (1 : ℤ) ≤ (L : ℤ) := by exact_mod_cast hL1
  have hcastL : (((L : ℤ) - 1 : ℤ) : ℚ) = ((L : ℕ) : ℚ) - 1 := by
    push_cast
    ring
  have hcastL' : ((L - 1 : ℕ) : ℚ) = ((L : ℕ) : ℚ) - 1 := by
    rw [Nat.cast_sub hL1, Nat.cast_one]
  refine ⟨m + 1, (L : ℤ) - 1, ?_, by omega, ?_, ?_, ?_, ?_⟩
  · rw [classes_can_leave, if_neg (ne_of_gt ht), hL]
    show some (max 0 ((L : ℤ) - 1)) = some ((L : ℤ) - 1)
    rw [max_eq_right (by omega : (0 : ℤ) ≤ (L : ℤ) - 1)]
  · have h := hLall (L - 1) (Nat.zero_le _) (by omega)
    rw [hcastL' ] at h
    rw [hcastL]
    exact h
  · have h := not_le.mp hLfail
    rw [hcastL]
    have harr : t + (((L : ℕ) : ℚ) - 1 + 1) = t + ((L : ℕ) : ℚ) := by ring
    rw [harr]
    exact h
  · intro m' hm' hsat
    by_contra hc
    push_neg at hc
    have hLm : (L : ℤ) ≤ m' := by omega
    have hLm' : ((L : ℕ) : ℚ) ≤ (m' : ℚ) := by exact_mod_cast hLm
    have htL : (0 : ℚ) < t + ((L : ℕ) : ℚ) := by
      have : (0 : ℚ) ≤ ((L : ℕ) : ℚ) := Nat.cast_nonneg L
      linarith
    have htm' : (0 : ℚ) < t + (m' : ℚ) := by linarith
    have hmono : p / (t + (m' : ℚ)) ≤ p / (t + ((L : ℕ) : ℚ)) := by
      rw [div_le_div_iff₀ htm' htL]
      nlinarith
    have h := not_le.mp hLfail
    have : T ≤ p / (t + ((L : ℕ) : ℚ)) * 100 :=
      le_trans hsat (by nlinarith)
    linarith
  · intro fuel' n' h'
    rw [classes_can_leave, if_neg (ne_of_gt ht)] at h'
    cases hLL : leaveLoop p t T fuel' 0 with
    | none =>
      rw [hLL] at h'
      exact absurd h' (by simp)
    | some L' =>
      rw [hLL] at h'
      have hmap : (some L').map (fun leave => max 0 ((leave : ℤ) - 1)) =
          some (max 0 ((L' : ℤ) - 1)) := rfl
      rw [hmap] at h'
      injection h' with h''
      have hEq : L' = L := leaveLoop_some_unique p t T fuel' (m + 1) 0 L' L
        hLL hL
      rw [← h'', hEq, max_eq_right (by omega : (0 : ℤ) ≤ (L : ℤ) - 1)]

/-- Witness for the amended C2 at the spec's third concrete scenario
`classes_can_leave(25, 30, 75)`: the current percentage is `83.3 ≥ 75` and
the characterized largest safe count exists (it is `3`). -/
theorem classes_can_leave_largest_witness :
    (0 : ℚ) < 25 ∧ (0 : ℚ) < 30 ∧ (0 : ℚ) < 75 ∧ (75 : ℚ) ≤ 100 ∧
      (75 : ℚ) ≤ 25 / 30 * 100 ∧
      ∃ (fuel : ℕ) (n : ℤ),
        classes_can_leave 25 30 75 fuel = some n ∧ 0 ≤ n ∧
          (75 : ℚ) ≤ 25 / (30 + (n : ℚ)) * 100 ∧
          25 / (30 + ((n : ℚ) + 1)) * 100 < 75 ∧
          (∀ m : ℤ, 0 ≤ m → (75 : ℚ) ≤ 25 / (30 + (m : ℚ)) * 100 → m ≤ n) ∧
          ∀ (fuel' : ℕ) (n' : ℤ),
            classes_can_leave 25 30 75 fuel' = some n' → n' = n :=
  ⟨by norm_num, by norm_num, by norm_num, by norm_num, by norm_num,
    classes_can_leave_largest 25 30 75 (by norm_num) (by norm_num)
      (by norm_num) (by norm_num) (by norm_num)⟩

end AttendanceTracker
